import Mathlib

/-!
Verification of the Resource Resolution & Tab Model of the markdownviewer
repository.  The renderer logic (src/renderer/App.tsx) and the main-process
launch-argument handling (src/main/index.ts) are embedded shallowly: strings
are lists of characters, the JavaScript string operations used by the code
(trim, toLowerCase, startsWith, endsWith, split-prefix) are reproduced on
character lists, and the stateful React / Electron handlers become pure
state-transition functions.
-/

/-- Strings of the embedded program: JavaScript strings as character lists. -/
abbrev Str := List Char

/-- Convert a Lean string literal into an embedded string. -/
def str (s : String) : Str := s.data

/-- The JavaScript nullish-coalescing operator a ?? b on nullable strings. -/
def coalesce (a b : Option Str) : Option Str :=
  match a with
  | some x => some x
  | none => b

/-- JavaScript truthiness of a nullable string: defined and non-empty. -/
def truthyStr : Option Str → Bool
  | some s => !s.isEmpty
  | none => false

/-- JavaScript s.startsWith(p). -/
def startsWithStr (p s : Str) : Bool := p.isPrefixOf s

/-- JavaScript s.endsWith(p). -/
def endsWithStr (p s : Str) : Bool := p.isSuffixOf s

/-- JavaScript s.toLowerCase(), character by character. -/
def toLowerStr (s : Str) : Str := s.map Char.toLower

/-- JavaScript s.trim(): whitespace removed from both ends. -/
def trimStr (s : Str) : Str :=
  ((s.dropWhile Char.isWhitespace).reverse.dropWhile Char.isWhitespace).reverse

/-- JavaScript s.split(c)[0]: the portion of s before the first occurrence of c. -/
def beforeFirst (c : Char) (s : Str) : Str := s.takeWhile (· ≠ c)

/-- JavaScript Array.prototype.findIndex, with -1 modelled as none. -/
def findIndex (p : α → Bool) : List α → Option Nat
  | [] => none
  | a :: l => if p a then some 0 else (findIndex p l).map (· + 1)

/-- The resource kind discriminator from src/common/types.ts. -/
inductive ResourceKind where
  | file
  | url
deriving DecidableEq, Repr

/-- MarkdownResource from src/common/types.ts: one opened document. -/
structure MarkdownResource where
  id : Str
  title : Str
  content : Str
  openedAt : Nat
  kind : ResourceKind
  path : Option Str := none
  url : Option Str := none
  finalUrl : Option Str := none
  basePath : Option Str := none
  baseUrl : Option Str := none
deriving DecidableEq, Repr

/-- The renderer state held by App (src/renderer/App.tsx): the ordered tab
collection, the active-selection id, and the pending status message. -/
structure AppState where
  tabs : List MarkdownResource
  activeId : Option Str
  status : Option Str
deriving DecidableEq, Repr

/-- The empty initial state of App. -/
def initState : AppState := { tabs := [], activeId := none, status := none }

/-- markdownExtensions from src/renderer/App.tsx line 11 (same list in
src/main/index.ts line 23). -/
def markdownExtensions : List Str :=
  [str ".md", str ".markdown", str ".mdown", str ".mkdn", str ".mkd", str ".mdx"]

/-- isMarkdownLink from src/renderer/App.tsx lines 12-15: strip everything
from the first '#', then from the first '?', lowercase, and test the
markdown extensions as suffixes. -/
def isMarkdownLink (href : Str) : Bool :=
  let sanitized := beforeFirst '?' (beforeFirst '#' href)
  markdownExtensions.any (fun ext => endsWithStr ext (toLowerStr sanitized))

/-- isMarkdownPath from src/main/index.ts lines 37-40 (splits at '?' first,
then '#'). -/
def isMarkdownPath (target : Str) : Bool :=
  let normalized := beforeFirst '#' (beforeFirst '?' target)
  markdownExtensions.any (fun ext => endsWithStr ext (toLowerStr normalized))

/-- The test of the regular expression (https?:)?\x2f\x2f with flag i at the
start of the string (src/renderer/App.tsx line 118): the string begins with
two slashes, optionally preceded by a case-insensitive http: or https:. -/
def isAbsWebUrl (s : Str) : Bool :=
  let l := toLowerStr s
  startsWithStr ['/', '/'] l || startsWithStr ['h', 't', 't', 'p', ':', '/', '/'] l ||
    startsWithStr ['h', 't', 't', 'p', 's', ':', '/', '/'] l

/-- The test of the regular expression matching one or more ASCII letters
followed by a colon at the start of the string (src/renderer/App.tsx
line 134). -/
def isSchemeLike (s : Str) : Bool :=
  let pre := s.takeWhile (fun c => c.isAlpha)
  !pre.isEmpty && startsWithStr [':'] (s.drop pre.length)

/-- The test of the regular expression matching a case-insensitive http:// or
https:// prefix (src/main/index.ts lines 161 and 178). -/
def isHttpUrl (s : Str) : Bool :=
  let l := toLowerStr s
  startsWithStr ['h', 't', 't', 'p', ':', '/', '/'] l ||
    startsWithStr ['h', 't', 't', 'p', 's', ':', '/', '/'] l

/-- The url-kind identity used for tab matching (src/renderer/App.tsx
lines 40-41): finalUrl if present, else url. -/
def urlIdentity (r : MarkdownResource) : Option Str := coalesce r.finalUrl r.url

/-- The match predicate of applyResource (src/renderer/App.tsx lines 35-43):
same kind, and path equality for file kind, or equality of the non-empty
url identities for url kind. -/
def tabMatches (entry incoming : MarkdownResource) : Bool :=
  if entry.kind ≠ incoming.kind then false
  else
    match entry.kind with
    | .file => entry.path == incoming.path
    | .url =>
      match urlIdentity entry, urlIdentity incoming with
      | some cu, some iu => if !cu.isEmpty && !iu.isEmpty then cu == iu else false
      | _, _ => false

/-- The tabs update performed by applyResource (src/renderer/App.tsx
lines 33-53): replace the first matching entry in place keeping its id, or
append; also returns the id that becomes active. -/
def upsertTabs (tabs : List MarkdownResource) (r : MarkdownResource) :
    List MarkdownResource × Str :=
  match tabs with
  | [] => ([r], r.id)
  | t :: rest =>
    if tabMatches t r then ({ r with id := t.id } :: rest, t.id)
    else
      let p := upsertTabs rest r
      (t :: p.1, p.2)

/-- applyResource from src/renderer/App.tsx lines 31-56: upsert the incoming
resource, select the resolved id, clear the status message. -/
def applyResource (s : AppState) (r : MarkdownResource) : AppState :=
  let p := upsertTabs s.tabs r
  { tabs := p.1, activeId := some p.2, status := none }

/-- closeTab from src/renderer/App.tsx lines 66-82: remove the tab with the
given id if present; when the removed tab was active, fall back to the entry
now at the removed index, else the one before it, else the first, else none. -/
def closeTab (s : AppState) (id : Str) : AppState :=
  match findIndex (fun t => t.id == id) s.tabs with
  | none =>
    { s with activeId := if s.activeId == some id then none else s.activeId }
  | some index =>
    let next := s.tabs.filter (fun t => t.id != id)
    let neighbour :=
      (next.get? index).orElse fun _ =>
        ((if index = 0 then none else next.get? (index - 1)).orElse fun _ =>
          next.get? 0)
    let fallback := neighbour.map (·.id)
    { s with
      tabs := next
      activeId := if s.activeId == some id then fallback else s.activeId }

/-- The derived activeTab value (src/renderer/App.tsx line 29): the tab whose
id equals activeId, else the first tab, else none. -/
def activeTabOf (s : AppState) : Option MarkdownResource :=
  let found : Option MarkdownResource :=
    match s.activeId with
    | some aid => s.tabs.find? (fun t => t.id == aid)
    | none => none
  found.orElse fun _ => s.tabs.head?

/-- The completion of an asynchronous fetch as observed by the renderer
handlers (src/renderer/App.tsx lines 96-108, 121-127, 161-167): success
carries the fetched resource, failure carries the error message. -/
inductive FetchOutcome where
  | success (r : MarkdownResource)
  | failure (msg : Str)

/-- Applying a fetch completion to the renderer state: a successful fetch is
upserted via applyResource; a failed fetch only sets the status message
(the catch blocks of src/renderer/App.tsx). -/
def applyFetchOutcome (s : AppState) : FetchOutcome → AppState
  | .success r => applyResource s r
  | .failure m => { s with status := some m }

/-- The navigation action decided by handleLinkActivation, abstracting the
delegated I/O (fetch via window.api.openUrl or window.api.openReference,
hand-off via window.api.openExternal, or a status message). -/
inductive LinkAction where
  | noop
  | fetchUrl (url : Str)
  | openExternal (url : Str)
  | fetchReference (href : Str) (origin : ResourceKind) (base : Str)
  | showError (msg : Str)
deriving DecidableEq, Repr

/-- The error message of src/renderer/App.tsx line 157. -/
def errNoBase : Str := str "Unable to resolve markdown reference without a base path."

/-- The resolution base of the markdown-reference branch
(src/renderer/App.tsx lines 151-154): basePath for file kind, else
baseUrl ?? finalUrl ?? url. -/
def resolutionBase (tab : MarkdownResource) : Option Str :=
  match tab.kind with
  | .file => tab.basePath
  | .url => coalesce tab.baseUrl (coalesce tab.finalUrl tab.url)

/-- handleLinkActivation from src/renderer/App.tsx lines 110-169 as a pure
decision function; resolve stands for the host URL constructor
new URL(href, base).toString().  Returns the decided action and the
handler's boolean result (true when the click is treated as handled). -/
def handleLinkActivation (resolve : Str → Str → Str)
    (activeTab : Option MarkdownResource) (href : Str) : LinkAction × Bool :=
  match activeTab with
  | none => (.noop, false)
  | some tab =>
    let trimmed := trimStr href
    if trimmed.isEmpty || startsWithStr ['#'] trimmed then (.noop, false)
    else if isAbsWebUrl trimmed then
      let absolute :=
        if startsWithStr ['h', 't', 't', 'p'] trimmed then trimmed
        else ['h', 't', 't', 'p', 's', ':'] ++ trimmed
      if isMarkdownLink absolute then (.fetchUrl absolute, true)
      else (.openExternal absolute, true)
    else if isSchemeLike trimmed then (.openExternal trimmed, true)
    else if !isMarkdownLink trimmed then
      if tab.kind = .url then
        match coalesce tab.baseUrl (coalesce tab.finalUrl tab.url) with
        | some b =>
          if !b.isEmpty then (.openExternal (resolve trimmed b), true)
          else (.noop, false)
        | none => (.noop, false)
      else (.noop, false)
    else
      match resolutionBase tab with
      | some b =>
        if b.isEmpty then (.showError errNoBase, true)
        else (.fetchReference trimmed tab.kind b, true)
      | none => (.showError errNoBase, true)

/-- The immediate effect of a decided link action on the renderer state:
only showError touches the state (setStatus), every other action either does
nothing to the store or dispatches I/O whose completion is applied later
through applyFetchOutcome. -/
def applyLinkAction (s : AppState) : LinkAction → AppState
  | .showError m => { s with status := some m }
  | _ => s

/-- One launch-argument dispatch of parseArgTargets (src/main/index.ts
lines 160-166): an http(s) URL is fetched, a markdown-extension path is read
as a file, anything else triggers nothing. -/
inductive LaunchAction where
  | fetchUrlArg (url : Str)
  | readFileArg (path : Str)
deriving DecidableEq, Repr

/-- The per-entry decision of parseArgTargets (src/main/index.ts
lines 160-166). -/
def argAction (a : Str) : Option LaunchAction :=
  if isHttpUrl a then some (.fetchUrlArg a)
  else if isMarkdownPath a then some (.readFileArg a)
  else none

/-- parseArgTargets from src/main/index.ts lines 157-167: drop the leading
executable arguments, drop flag arguments beginning with two dashes, and
dispatch each remaining candidate through argAction. -/
def parseArgTargets (isPackaged : Bool) (argv : List Str) : List LaunchAction :=
  let sliceFrom := if isPackaged then 1 else 2
  ((argv.drop sliceFrom).filter (fun a => !startsWithStr ['-', '-'] a)).filterMap argAction

/-- The store operations of the Tab/Resource Store (spec section 4.2) as
realised by the renderer: upsert is applyResource, close is closeTab,
setActive is the tab-strip click setActiveId on an existing tab
(src/renderer/App.tsx line 305). -/
inductive TabOp where
  | upsert (r : MarkdownResource)
  | close (id : Str)
  | setActive (id : Str)

/-- One store operation applied to the renderer state. -/
def stepOp (s : AppState) : TabOp → AppState
  | .upsert r => applyResource s r
  | .close id => closeTab s id
  | .setActive id => if s.tabs.any (fun t => t.id == id) then { s with activeId := some id } else s

/-- Run a sequence of store operations from the empty initial state. -/
def runOps (ops : List TabOp) : AppState := ops.foldl stepOp initState

/-- Well-formedness of an inserted resource as assumed by claim C2: exactly
the identity fields of its kind are populated — a file-kind resource has a
path and no url fields, a url-kind resource has a non-empty url, no path,
and a non-empty finalUrl when one is present. -/
def wfResource (r : MarkdownResource) : Bool :=
  match r.kind with
  | .file => r.path.isSome && r.url == none && r.finalUrl == none
  | .url =>
    r.path == none &&
      (match r.url with | some u => !u.isEmpty | none => false) &&
      (match r.finalUrl with | some f => !f.isEmpty | none => true)

/-- Well-formedness of a store operation: upserts carry well-formed
resources. -/
def wfOp : TabOp → Bool
  | .upsert r => wfResource r
  | _ => true

/-- The logical identity key used for deduplication (spec section 3): the
kind together with the path for file kind or the final-or-original URL for
url kind. -/
def idKey (r : MarkdownResource) : Option (ResourceKind × Str) :=
  match r.kind with
  | .file => r.path.map (fun p => (.file, p))
  | .url => (urlIdentity r).map (fun u => (.url, u))

/-! ## Concrete fixtures used by witnesses and counterexamples -/

/-- A file-kind document resource fixture, as produced by readMarkdownFile. -/
def demoFileTab : MarkdownResource :=
  { id := str "t1", title := str "a.md", content := str "hello", openedAt := 0,
    kind := .file, path := some (str "/docs/a.md"), basePath := some (str "/docs") }

/-- A url-kind document resource fixture, as produced by fetchMarkdownUrl. -/
def demoUrlTab : MarkdownResource :=
  { id := str "t2", title := str "readme.md", content := str "hi", openedAt := 1,
    kind := .url, url := some (str "https://example.com/readme.md"),
    finalUrl := some (str "https://example.com/readme.md"),
    baseUrl := some (str "https://example.com/readme.md") }

/-- A file-kind resource fixture with no resolution base. -/
def demoNoBaseTab : MarkdownResource :=
  { id := str "t3", title := str "b.md", content := str "hey", openedAt := 2,
    kind := .file, path := some (str "/docs/b.md"), basePath := none }

/-- A concrete stand-in for the host URL constructor, only used at witness
inputs whose branch never invokes it or whose exact resolution is irrelevant. -/
def demoResolve : Str → Str → Str := fun h _ => h

/-- Resource fixture a.md. -/
def resA : MarkdownResource :=
  { id := str "a", title := str "A", content := str "one", openedAt := 0,
    kind := .file, path := some (str "/a.md"), basePath := some (str "/") }

/-- Resource fixture b.md. -/
def resB : MarkdownResource :=
  { id := str "b", title := str "B", content := str "two", openedAt := 1,
    kind := .file, path := some (str "/b.md"), basePath := some (str "/") }

/-- Resource fixture c.md. -/
def resC : MarkdownResource :=
  { id := str "c", title := str "C", content := str "three", openedAt := 2,
    kind := .file, path := some (str "/c.md"), basePath := some (str "/") }

/-- A three-tab state with the last tab active. -/
def demoState3 : AppState :=
  { tabs := [resA, resB, resC], activeId := some (str "c"), status := none }

/-! ## Claim theorems -/

/-- C6.  For every triggered fetch, a failure outcome leaves the tab
collection and the active selection exactly as they were and records the
failure as the single status message replacing any prior one; the store is
upserted only through the success outcome, and a successful outcome clears
the message. -/
theorem fetch_failure_frame (s : AppState) (m : Str) (r : MarkdownResource) :
    (applyFetchOutcome s (.failure m)).tabs = s.tabs ∧
    (applyFetchOutcome s (.failure m)).activeId = s.activeId ∧
    (applyFetchOutcome s (.failure m)).status = some m ∧
    applyFetchOutcome s (.success r) = applyResource s r ∧
    (applyFetchOutcome s (.success r)).status = none :=
  ⟨rfl, rfl, rfl, rfl, rfl⟩

/-- C9.  Closing a tab whose id is not the currently active selection never
changes the active selection. -/
theorem close_nonactive_preserves_active (s : AppState) (id : Str)
    (h : s.activeId ≠ some id) : (closeTab s id).activeId = s.activeId := by
  have hb : (s.activeId == some id) = false := beq_eq_false_iff_ne.mpr h
  unfold closeTab
  cases hf : findIndex (fun t => t.id == id) s.tabs <;> simp [hb]

/-- Witness for C9 at a concrete state: closing the non-active tab a keeps
tab c active. -/
theorem close_nonactive_preserves_active_witness :
    (closeTab demoState3 (str "a")).activeId = some (str "c") :=
  (close_nonactive_preserves_active demoState3 (str "a") (by decide)).trans (by decide)

/-- C10.  When the tab collection is empty there is no active tab, and link
activation decides no action at all and reports the click unhandled, for
every href including absolute web URLs. -/
theorem no_active_tab_link_noop (s : AppState) (resolve : Str → Str → Str)
    (href : Str) (h : s.tabs = []) :
    activeTabOf s = none ∧
    handleLinkActivation resolve (activeTabOf s) href = (.noop, false) := by
  have hnone : activeTabOf s = none := by
    cases hA : s.activeId <;> simp [activeTabOf, h, hA, Option.orElse]
  exact ⟨hnone, by rw [hnone]; rfl⟩

/-- Witness for C10: with no tab open, an absolute markdown URL click decides
nothing and is reported unhandled. -/
theorem no_active_tab_link_noop_witness :
    activeTabOf initState = none ∧
    handleLinkActivation demoResolve (activeTabOf initState)
      (str "https://example.com/readme.md") = (.noop, false) :=
  no_active_tab_link_noop initState demoResolve (str "https://example.com/readme.md") rfl

/-- C4 counterexample.  The href HTTP://example.com/image.png matches the
case-insensitive absolute web URL pattern and is not a markdown link, so the
claim says the original URL is delegated to external-open (https-completion
being reserved for protocol-relative input); the code instead tests the
lowercase prefix http case-sensitively and delegates
https:HTTP://example.com/image.png. -/
theorem absWebUrl_delegation_cex :
    isAbsWebUrl (trimStr (str "HTTP://example.com/image.png")) = true ∧
    handleLinkActivation demoResolve (some demoFileTab)
        (str "HTTP://example.com/image.png") =
      (.openExternal (str "https:HTTP://example.com/image.png"), true) ∧
    handleLinkActivation demoResolve (some demoFileTab)
        (str "HTTP://example.com/image.png") ≠
      (.openExternal (str "HTTP://example.com/image.png"), true) :=
  ⟨by decide, by decide, by decide⟩

/-- A string accepted by the absolute-web-URL pattern is non-empty, does not
begin with a number sign, and its first character lowercases to a slash or
to the letter h. -/
theorem isAbsWebUrl_shape (t : Str) (h : isAbsWebUrl t = true) :
    t.isEmpty = false ∧ startsWithStr ['#'] t = false := by
  cases t with
  | nil => exact absurd h (by decide)
  | cons c rest =>
    refine ⟨rfl, ?_⟩
    simp only [isAbsWebUrl, toLowerStr, List.map_cons, startsWithStr,
      List.isPrefixOf, Bool.or_eq_true, Bool.and_eq_true, beq_iff_eq] at h
    have hc : c ≠ '#' := by
      intro hc
      subst hc
      rcases h with (⟨h1, -⟩ | ⟨h1, -⟩) | ⟨h1, -⟩ <;> exact absurd h1 (by decide)
    simp [startsWithStr, List.isPrefixOf, hc, Ne.symm hc]

/-- C4 amended.  For every href whose trimmed form matches the absolute web
URL pattern (case-insensitive) and every open document: the code forms the
dispatched URL by prefixing https: unless the trimmed href starts with the
four lowercase characters http (so protocol-relative hrefs and hrefs with an
uppercased scheme both receive the prefix); if that URL ends in a markdown
extension before any fragment or query it is fetched to open or update a
tab, otherwise it is delegated to external-open; either way the click is
handled. -/
theorem absWebUrl_delegation_amended (resolve : Str → Str → Str)
    (tab : MarkdownResource) (href : Str)
    (h : isAbsWebUrl (trimStr href) = true) :
    handleLinkActivation resolve (some tab) href =
      (let trimmed := trimStr href
       let absolute :=
         if startsWithStr ['h', 't', 't', 'p'] trimmed then trimmed
         else ['h', 't', 't', 'p', 's', ':'] ++ trimmed
       if isMarkdownLink absolute then (.fetchUrl absolute, true)
       else (.openExternal absolute, true)) := by
  obtain ⟨he, hh⟩ := isAbsWebUrl_shape (trimStr href) h
  simp only [handleLinkActivation, he, hh, h, Bool.or_self, if_false, if_true,
    Bool.false_eq_true]

/-- Witness for the amended C4 at the spec's two example links: the markdown
URL is fetched in-app and the image URL is delegated to external-open. -/
theorem absWebUrl_delegation_amended_witness :
    handleLinkActivation demoResolve (some demoFileTab)
        (str "https://example.com/readme.md") =
      (.fetchUrl (str "https://example.com/readme.md"), true) ∧
    handleLinkActivation demoResolve (some demoFileTab)
        (str "https://example.com/image.png") =
      (.openExternal (str "https://example.com/image.png"), true) :=
  ⟨(absWebUrl_delegation_amended demoResolve demoFileTab
      (str "https://example.com/readme.md") (by decide)).trans (by decide),
   (absWebUrl_delegation_amended demoResolve demoFileTab
      (str "https://example.com/image.png") (by decide)).trans (by decide)⟩

/-- When no existing tab matches the incoming resource, upsertTabs appends it
at the end and resolves to the incoming id. -/
theorem upsertTabs_of_no_match (tabs : List MarkdownResource)
    (r : MarkdownResource) (h : ∀ t ∈ tabs, tabMatches t r = false) :
    upsertTabs tabs r = (tabs ++ [r], r.id) := by
  induction tabs with
  | nil => rfl
  | cons t rest ih =>
    have ht : tabMatches t r = false := h t (List.mem_cons_self t rest)
    simp [upsertTabs, ht, ih fun u hu => h u (List.mem_cons_of_mem t hu)]

/-- When the first matching tab sits at index i, upsertTabs replaces exactly
that entry, keeps its id, and resolves to that id. -/
theorem upsertTabs_of_first_match (tabs : List MarkdownResource)
    (r : MarkdownResource) (i : Nat) (t : MarkdownResource)
    (hget : tabs.get? i = some t) (hm : tabMatches t r = true)
    (hfirst : ∀ j u, j < i → tabs.get? j = some u → tabMatches u r = false) :
    upsertTabs tabs r = (tabs.set i { r with id := t.id }, t.id) := by
  induction tabs generalizing i with
  | nil => exact Option.noConfusion hget
  | cons a rest ih =>
    cases i with
    | zero =>
      obtain rfl : a = t := Option.some.injEq .. ▸ hget
      simp [upsertTabs, hm]
    | succ j =>
      have ha : tabMatches a r = false :=
        hfirst 0 a (Nat.zero_lt_succ j) rfl
      have hrest := ih j hget fun k u hk hku =>
        hfirst (k + 1) u (Nat.succ_lt_succ hk) hku
      simp [upsertTabs, ha, hrest]

/-- An index holding a value in a list is within bounds. -/
theorem get?_some_lt_length {l : List α} {i : Nat} {a : α}
    (h : l.get? i = some a) : i < l.length := by
  by_contra hc
  rw [List.get?_len_le (Nat.le_of_not_lt hc)] at h
  exact Option.noConfusion h

/-- C1.  Upserting a resource clears the status message; if no existing tab
matches its (kind, identity) it is appended at the end and its own id
becomes active; if the first matching tab sits at index i, the collection
keeps its length, the entry at i keeps its stable id while every other field
is replaced by the incoming resource's values, every other entry is
untouched, and the matched tab's stable id becomes active. -/
theorem applyResource_upsert (s : AppState) (r : MarkdownResource) :
    (applyResource s r).status = none ∧
    ((∀ t ∈ s.tabs, tabMatches t r = false) →
      (applyResource s r).tabs = s.tabs ++ [r] ∧
      (applyResource s r).activeId = some r.id) ∧
    (∀ i t, s.tabs.get? i = some t → tabMatches t r = true →
      (∀ j u, j < i → s.tabs.get? j = some u → tabMatches u r = false) →
      (applyResource s r).tabs = s.tabs.set i { r with id := t.id } ∧
      (applyResource s r).activeId = some t.id ∧
      (applyResource s r).tabs.length = s.tabs.length ∧
      (applyResource s r).tabs.get? i = some { r with id := t.id } ∧
      ∀ j, j ≠ i → (applyResource s r).tabs.get? j = s.tabs.get? j) := by
  refine ⟨rfl, ?_, ?_⟩
  · intro h
    rw [applyResource, upsertTabs_of_no_match s.tabs r h]
    exact ⟨rfl, rfl⟩
  · intro i t hget hm hfirst
    rw [applyResource, upsertTabs_of_first_match s.tabs r i t hget hm hfirst]
    refine ⟨rfl, rfl, by simp [List.length_set], ?_, ?_⟩
    · exact List.get?_set_eq_of_lt _ (get?_some_lt_length hget)
    · intro j hj
      exact List.get?_set_ne _ _ (Ne.symm hj)

/-- Witness for C1 at a concrete state: re-upserting a resource with the
same path as tab a (fresh id zz, new content) keeps the three tabs in place,
keeps the stable id a at index 0, replaces that entry's content, re-selects
a, and clears the status; upserting a novel path appends. -/
theorem applyResource_upsert_witness :
    (applyResource demoState3 { resA with id := str "zz", content := str "new" }).tabs =
      [{ resA with content := str "new" }, resB, resC] ∧
    (applyResource demoState3 { resA with id := str "zz", content := str "new" }).activeId =
      some (str "a") ∧
    (applyResource demoState3 { resA with id := str "zz", content := str "new" }).status = none ∧
    (applyResource demoState3 demoFileTab).tabs = [resA, resB, resC, demoFileTab] := by
  have h := applyResource_upsert demoState3 { resA with id := str "zz", content := str "new" }
  have hrepl := h.2.2 0 resA (by decide) (by decide)
    (fun j u hj => absurd hj (Nat.not_lt_zero j))
  have h2 := applyResource_upsert demoState3 demoFileTab
  have happ := h2.2.1 (by decide)
  exact ⟨hrepl.1.trans (by decide), hrepl.2.1.trans (by decide), h.1, happ.1.trans (by decide)⟩

/-- C5.  For a trimmed href that is non-empty, not a fragment, not an
absolute web URL, not another URI scheme, and not a markdown reference by
extension: from a url-kind document the href is resolved against the
document's base (baseUrl, else finalUrl, else url) and the resolved URL is
delegated to external-open with the click handled; from a file-kind document
nothing is decided and the click is reported unhandled. -/
theorem nonmarkdown_relative_link (resolve : Str → Str → Str)
    (tab : MarkdownResource) (href : Str)
    (h1 : (trimStr href).isEmpty = false)
    (h2 : startsWithStr ['#'] (trimStr href) = false)
    (h3 : isAbsWebUrl (trimStr href) = false)
    (h4 : isSchemeLike (trimStr href) = false)
    (h5 : isMarkdownLink (trimStr href) = false) :
    (tab.kind = .file →
      handleLinkActivation resolve (some tab) href = (.noop, false)) ∧
    (∀ b, tab.kind = .url →
      coalesce tab.baseUrl (coalesce tab.finalUrl tab.url) = some b →
      b.isEmpty = false →
      handleLinkActivation resolve (some tab) href =
        (.openExternal (resolve (trimStr href) b), true)) := by
  constructor
  · intro hk
    simp [handleLinkActivation, h1, h2, h3, h4, h5, hk]
  · intro b hk hb hbe
    simp [handleLinkActivation, h1, h2, h3, h4, h5, hk, hb, hbe]

/-- Witness for C5: the relative image link image.png is unhandled with no
action from a file-kind document and is resolved and delegated to
external-open from a url-kind document. -/
theorem nonmarkdown_relative_link_witness :
    handleLinkActivation demoResolve (some demoFileTab) (str "image.png") =
      (.noop, false) ∧
    handleLinkActivation demoResolve (some demoUrlTab) (str "image.png") =
      (.openExternal (demoResolve (str "image.png")
        (str "https://example.com/readme.md")), true) := by
  have hf := nonmarkdown_relative_link demoResolve demoFileTab (str "image.png")
    (by decide) (by decide) (by decide) (by decide) (by decide)
  have hu := nonmarkdown_relative_link demoResolve demoUrlTab (str "image.png")
    (by decide) (by decide) (by decide) (by decide) (by decide)
  refine ⟨hf.1 (by decide), ?_⟩
  have := hu.2 (str "https://example.com/readme.md") (by decide) (by decide) (by decide)
  exact this.trans (by decide)

/-- C8.  For a trimmed href that reaches the markdown-reference branch
(non-empty, not a fragment, not an absolute web URL, not another scheme,
ending in a markdown extension) from a document whose resolution base is
absent, the handler decides only the user-visible error message and reports
the click handled; applying that decision leaves the tab collection and
active selection untouched and sets only the status message. -/
theorem markdown_reference_missing_base (resolve : Str → Str → Str)
    (tab : MarkdownResource) (href : Str)
    (h1 : (trimStr href).isEmpty = false)
    (h2 : startsWithStr ['#'] (trimStr href) = false)
    (h3 : isAbsWebUrl (trimStr href) = false)
    (h4 : isSchemeLike (trimStr href) = false)
    (h5 : isMarkdownLink (trimStr href) = true)
    (h6 : truthyStr (resolutionBase tab) = false) :
    handleLinkActivation resolve (some tab) href = (.showError errNoBase, true) ∧
    ∀ s : AppState,
      (applyLinkAction s (.showError errNoBase)).tabs = s.tabs ∧
      (applyLinkAction s (.showError errNoBase)).activeId = s.activeId ∧
      (applyLinkAction s (.showError errNoBase)).status = some errNoBase := by
  refine ⟨?_, fun s => ⟨rfl, rfl, rfl⟩⟩
  cases hrb : resolutionBase tab with
  | none => simp [handleLinkActivation, h1, h2, h3, h4, h5, hrb]
  | some b =>
    rw [hrb] at h6
    have hbe : b.isEmpty = true := by
      simpa [truthyStr] using h6
    simp [handleLinkActivation, h1, h2, h3, h4, h5, hrb, hbe]

/-- Witness for C8: following notes.md from a file-kind document without a
basePath decides exactly the error message, reports the click handled, and
leaves a concrete state's tabs and selection unchanged. -/
theorem markdown_reference_missing_base_witness :
    handleLinkActivation demoResolve (some demoNoBaseTab) (str "notes.md") =
      (.showError errNoBase, true) ∧
    (applyLinkAction demoState3 (.showError errNoBase)).tabs = demoState3.tabs ∧
    (applyLinkAction demoState3 (.showError errNoBase)).status = some errNoBase := by
  have h := markdown_reference_missing_base demoResolve demoNoBaseTab (str "notes.md")
    (by decide) (by decide) (by decide) (by decide) (by decide) (by decide)
  exact ⟨h.1, (h.2 demoState3).1, (h.2 demoState3).2.2⟩

/-- C7 counterexample.  The claim says a launch argument that is not an
http(s) URL and not an existing markdown-extension path triggers nothing;
but parseArgTargets never consults the filesystem, so under a filesystem in
which missing.md does not exist the entry still triggers a file read (whose
failure then surfaces as an error message, not silence). -/
theorem launch_arg_ignore_cex :
    ¬ (∀ (fileExists : Str → Bool) (a : Str),
        isHttpUrl a = false → (fileExists a && isMarkdownPath a) = false →
        argAction a = none) := by
  intro hclaim
  have h := hclaim (fun _ => false) (str "missing.md") (by decide) (by decide)
  exact absurd h (by decide)

/-- C7 amended.  A launch argument entry that neither matches an http(s)
URL prefix nor ends in a markdown extension triggers no action; existence is
never checked: http(s) entries are always fetched and markdown-extension
entries are always read (a missing file then produces an error message
rather than silent ignoring); and every dispatched launch action stems from
a non-flag candidate argument. -/
theorem launch_arg_ignore_amended (isPackaged : Bool) (argv : List Str) (a : Str) :
    (isHttpUrl a = false → isMarkdownPath a = false → argAction a = none) ∧
    (isHttpUrl a = true → argAction a = some (.fetchUrlArg a)) ∧
    (isHttpUrl a = false → isMarkdownPath a = true →
      argAction a = some (.readFileArg a)) ∧
    (∀ act ∈ parseArgTargets isPackaged argv,
      ∃ b, b ∈ argv.drop (if isPackaged then 1 else 2) ∧
        startsWithStr ['-', '-'] b = false ∧ argAction b = some act) := by
  refine ⟨?_, ?_, ?_, ?_⟩
  · intro h1 h2; simp [argAction, h1, h2]
  · intro h1; simp [argAction, h1]
  · intro h1 h2; simp [argAction, h1, h2]
  · intro act hmem
    simp only [parseArgTargets, List.mem_filterMap, List.mem_filter] at hmem
    obtain ⟨b, ⟨hb1, hb2⟩, hb3⟩ := hmem
    exact ⟨b, hb1, by simpa using hb2, hb3⟩

/-- Witness for the amended C7 at concrete entries: a plain text file path
triggers nothing, a missing markdown path is still read, an http URL is
fetched. -/
theorem launch_arg_ignore_amended_witness :
    argAction (str "junk.txt") = none ∧
    argAction (str "missing.md") = some (.readFileArg (str "missing.md")) ∧
    argAction (str "https://example.com/readme.md") =
      some (.fetchUrlArg (str "https://example.com/readme.md")) := by
  have h1 := launch_arg_ignore_amended false [] (str "junk.txt")
  have h2 := launch_arg_ignore_amended false [] (str "missing.md")
  have h3 := launch_arg_ignore_amended false [] (str "https://example.com/readme.md")
  exact ⟨h1.1 (by decide) (by decide), h2.2.2.1 (by decide) (by decide),
    h3.2.1 (by decide)⟩

/-- findIndex only returns in-bounds indices. -/
theorem findIndex_lt_length {p : α → Bool} {l : List α} {i : Nat}
    (h : findIndex p l = some i) : i < l.length := by
  induction l generalizing i with
  | nil => exact Option.noConfusion h
  | cons a l ih =>
    rw [findIndex] at h
    by_cases hp : p a = true
    · rw [if_pos hp] at h
      injection h with h
      exact h ▸ Nat.zero_lt_succ _
    · rw [if_neg hp] at h
      obtain ⟨j, hj, rfl⟩ := Option.map_eq_some'.mp h
      exact Nat.succ_lt_succ (ih hj)

/-- With pairwise-distinct ids, removing a tab by id filtering coincides
with deleting the entry at the index findIndex locates: survivors keep their
relative order. -/
theorem filter_ne_eraseIdx (l : List MarkdownResource) (aid : Str) (i : Nat)
    (hN : (l.map (fun t => t.id)).Nodup)
    (hF : findIndex (fun t => t.id == aid) l = some i) :
    l.filter (fun t => t.id != aid) = l.eraseIdx i := by
  induction l generalizing i with
  | nil => exact Option.noConfusion hF
  | cons a l ih =>
    rw [findIndex] at hF
    by_cases hp : (a.id == aid) = true
    · rw [if_pos hp] at hF
      injection hF with hF
      subst hF
      have haid : a.id = aid := eq_of_beq hp
      have hN0 := hN
      rw [List.map_cons, List.nodup_cons] at hN0
      have hnotin : a.id ∉ l.map (fun t => t.id) := hN0.1
      have hkeep : ∀ t ∈ l, (t.id != aid) = true := by
        intro t ht
        have htne : t.id ≠ aid := by
          intro he
          exact hnotin (haid ▸ he ▸ List.mem_map_of_mem (fun t => t.id) ht)
        simpa using htne
      have hbne : (a.id != aid) = false := by simp [haid]
      simp only [List.eraseIdx_cons_zero, List.filter_cons, hbne,
        Bool.false_eq_true, if_false]
      exact List.filter_eq_self.mpr hkeep
    · rw [if_neg hp] at hF
      obtain ⟨j, hj, rfl⟩ := Option.map_eq_some'.mp hF
      have hbne : (a.id != aid) = true := by simpa using hp
      have hN0 := hN
      rw [List.map_cons, List.nodup_cons] at hN0
      simp only [List.eraseIdx_cons_succ, List.filter_cons, hbne, if_true]
      rw [ih j hN0.2 hj]

/-- C3.  Closing the active tab, sitting at index i of a collection with
pairwise-distinct ids, removes exactly that entry (survivors keep their
relative order) and selects the entry now occupying index i, else the entry
at index i-1, else the first remaining entry, else none; when at least two
tabs existed some tab always remains active. -/
theorem close_active_fallback (s : AppState) (aid : Str) (i : Nat)
    (hN : (s.tabs.map (fun t => t.id)).Nodup)
    (hA : s.activeId = some aid)
    (hF : findIndex (fun t => t.id == aid) s.tabs = some i) :
    (closeTab s aid).tabs = s.tabs.eraseIdx i ∧
    (closeTab s aid).activeId =
      (((s.tabs.eraseIdx i).get? i).orElse fun _ =>
        ((if i = 0 then none else (s.tabs.eraseIdx i).get? (i - 1)).orElse fun _ =>
          (s.tabs.eraseIdx i).get? 0)).map (fun t => t.id) ∧
    (2 ≤ s.tabs.length → ((closeTab s aid).activeId).isSome = true) := by
  have hlt : i < s.tabs.length := findIndex_lt_length hF
  have herase := filter_ne_eraseIdx s.tabs aid i hN hF
  have hbeq : (s.activeId == some aid) = true := by rw [hA]; exact beq_self_eq_true _
  have htabs : (closeTab s aid).tabs = s.tabs.eraseIdx i := by
    unfold closeTab
    rw [hF]
    simpa using herase
  have hactive : (closeTab s aid).activeId =
      (((s.tabs.eraseIdx i).get? i).orElse fun _ =>
        ((if i = 0 then none else (s.tabs.eraseIdx i).get? (i - 1)).orElse fun _ =>
          (s.tabs.eraseIdx i).get? 0)).map (fun t => t.id) := by
    unfold closeTab
    rw [hF]
    simp only [herase, hbeq, if_true]
  refine ⟨htabs, hactive, ?_⟩
  intro hlen
  rw [hactive]
  have hlenerase : (s.tabs.eraseIdx i).length = s.tabs.length - 1 :=
    List.length_eraseIdx_of_lt hlt
  by_cases hi : i < (s.tabs.eraseIdx i).length
  · obtain ⟨a, ha⟩ : ∃ a, (s.tabs.eraseIdx i).get? i = some a :=
      ⟨_, List.get?_eq_get hi⟩
    rw [ha]
    rfl
  · have hieq : i = (s.tabs.eraseIdx i).length := by omega
    have hzero : ¬ i = 0 := by omega
    have hprev : i - 1 < (s.tabs.eraseIdx i).length := by omega
    obtain ⟨a, ha⟩ : ∃ a, (s.tabs.eraseIdx i).get? (i - 1) = some a :=
      ⟨_, List.get?_eq_get hprev⟩
    have hnone : (s.tabs.eraseIdx i).get? i = none :=
      List.get?_len_le (by omega)
    rw [hnone, if_neg hzero, ha]
    rfl

/-- Witness for C3 at the spec's scenario: three tabs a, b, c with c active;
closing c removes it, keeps a and b in order, and makes b active. -/
theorem close_active_fallback_witness :
    (closeTab demoState3 (str "c")).tabs = [resA, resB] ∧
    (closeTab demoState3 (str "c")).activeId = some (str "b") := by
  have h := close_active_fallback demoState3 (str "c") 2 (by decide) (by decide)
    (by decide)
  exact ⟨h.1.trans (by decide), h.2.1.trans (by decide)⟩

/-- A well-formed file-kind resource exposes its path. -/
theorem wf_file_path (r : MarkdownResource) (hk : r.kind = .file)
    (hw : wfResource r = true) : ∃ p, r.path = some p := by
  unfold wfResource at hw
  rw [hk] at hw
  simp only [Bool.and_eq_true] at hw
  exact Option.isSome_iff_exists.mp hw.1.1

/-- A well-formed url-kind resource exposes a non-empty url identity. -/
theorem wf_url_identity (r : MarkdownResource) (hk : r.kind = .url)
    (hw : wfResource r = true) :
    ∃ u, urlIdentity r = some u ∧ u.isEmpty = false := by
  unfold wfResource at hw
  rw [hk] at hw
  simp only [Bool.and_eq_true] at hw
  obtain ⟨⟨-, h2⟩, h3⟩ := hw
  unfold urlIdentity coalesce
  cases hf : r.finalUrl with
  | some f =>
    rw [hf] at h3
    exact ⟨f, rfl, by simpa using h3⟩
  | none =>
    cases hu : r.url with
    | some u =>
      rw [hu] at h2
      exact ⟨u, rfl, by simpa using h2⟩
    | none => rw [hu] at h2; exact Bool.noConfusion h2

/-- For well-formed resources the tab-match predicate of applyResource
coincides with equality of the logical identity keys. -/
theorem tabMatches_iff_idKey (a b : MarkdownResource)
    (ha : wfResource a = true) (hb : wfResource b = true) :
    tabMatches a b = true ↔ idKey a = idKey b := by
  cases hak : a.kind <;> cases hbk : b.kind
  · obtain ⟨p, hp⟩ := wf_file_path a hak ha
    obtain ⟨q, hq⟩ := wf_file_path b hbk hb
    simp [tabMatches, idKey, hak, hbk, hp, hq]
  · obtain ⟨p, hp⟩ := wf_file_path a hak ha
    obtain ⟨v, hv, -⟩ := wf_url_identity b hbk hb
    simp [tabMatches, idKey, hak, hbk, hp, hv]
  · obtain ⟨u, hu, -⟩ := wf_url_identity a hak ha
    obtain ⟨q, hq⟩ := wf_file_path b hbk hb
    simp [tabMatches, idKey, hak, hbk, hu, hq]
  · obtain ⟨u, hu, hue⟩ := wf_url_identity a hak ha
    obtain ⟨v, hv, hve⟩ := wf_url_identity b hbk hb
    simp [tabMatches, idKey, hak, hbk, hu, hv, hue, hve]

/-- The identity key ignores the stable id, so replacing an entry in place
with the incoming resource under the old id keeps the incoming identity. -/
theorem idKey_set_id (r : MarkdownResource) (x : Str) :
    idKey { r with id := x } = idKey r := rfl

/-- Well-formedness ignores the stable id. -/
theorem wfResource_set_id (r : MarkdownResource) (x : Str) :
    wfResource { r with id := x } = wfResource r := rfl

/-- Upserting a well-formed resource into a well-formed collection leaves
the identity-key sequence unchanged when some entry matches, and appends the
incoming key otherwise. -/
theorem upsertTabs_map_idKey (tabs : List MarkdownResource)
    (r : MarkdownResource) (hw : ∀ t ∈ tabs, wfResource t = true)
    (hr : wfResource r = true) :
    (tabs.any (fun t => tabMatches t r) = true →
      (upsertTabs tabs r).1.map idKey = tabs.map idKey) ∧
    (tabs.any (fun t => tabMatches t r) = false →
      (upsertTabs tabs r).1.map idKey = tabs.map idKey ++ [idKey r]) := by
  induction tabs with
  | nil => exact ⟨fun h => Bool.noConfusion h, fun _ => rfl⟩
  | cons t rest ih =>
    have hwt : wfResource t = true := hw t (List.mem_cons_self t rest)
    have hwrest : ∀ u ∈ rest, wfResource u = true :=
      fun u hu => hw u (List.mem_cons_of_mem t hu)
    by_cases hm : tabMatches t r = true
    · have hkey : idKey r = idKey t :=
        ((tabMatches_iff_idKey t r hwt hr).mp hm).symm
      constructor
      · intro _
        simp [upsertTabs, hm, idKey_set_id, hkey]
      · intro hany
        rw [List.any_cons, hm] at hany
        exact Bool.noConfusion hany
    · have hmf : tabMatches t r = false := (Bool.eq_false_iff).mpr hm
      constructor
      · intro hany
        rw [List.any_cons, hmf, Bool.false_or] at hany
        simp only [upsertTabs, hmf, Bool.false_eq_true, if_false, List.map_cons]
        rw [(ih hwrest).1 hany]
      · intro hany
        rw [List.any_cons, hmf, Bool.false_or] at hany
        simp only [upsertTabs, hmf, Bool.false_eq_true, if_false, List.map_cons]
        rw [(ih hwrest).2 hany]
        rfl

/-- Every entry of an upserted collection is well-formed when the original
entries and the incoming resource are. -/
theorem upsertTabs_wf (tabs : List MarkdownResource) (r : MarkdownResource)
    (hw : ∀ t ∈ tabs, wfResource t = true) (hr : wfResource r = true) :
    ∀ t ∈ (upsertTabs tabs r).1, wfResource t = true := by
  induction tabs with
  | nil =>
    intro t ht
    rw [List.mem_singleton.mp ht]
    exact hr
  | cons a rest ih =>
    have hwa : wfResource a = true := hw a (List.mem_cons_self a rest)
    have hwrest : ∀ u ∈ rest, wfResource u = true :=
      fun u hu => hw u (List.mem_cons_of_mem a hu)
    by_cases hm : tabMatches a r = true
    · intro t ht
      simp only [upsertTabs, hm, if_true] at ht
      rcases List.mem_cons.mp ht with h | h
      · rw [h, wfResource_set_id]; exact hr
      · exact hwrest t h
    · have hmf : tabMatches a r = false := (Bool.eq_false_iff).mpr hm
      intro t ht
      simp only [upsertTabs, hmf, Bool.false_eq_true, if_false] at ht
      rcases List.mem_cons.mp ht with h | h
      · rw [h]; exact hwa
      · exact ih hwrest t h

/-- The store invariant maintained by the renderer operations: every tab is
well-formed and the identity keys are pairwise distinct. -/
def storeInv (s : AppState) : Prop :=
  (∀ t ∈ s.tabs, wfResource t = true) ∧ (s.tabs.map idKey).Nodup

/-- closeTab either keeps the tab list or filters out the closed id. -/
theorem closeTab_tabs_cases (s : AppState) (id : Str) :
    (closeTab s id).tabs = s.tabs ∨
    (closeTab s id).tabs = s.tabs.filter (fun t => t.id != id) := by
  unfold closeTab
  cases findIndex (fun t => t.id == id) s.tabs with
  | none => exact Or.inl rfl
  | some i => exact Or.inr rfl

/-- Every store operation carrying well-formed data preserves the store
invariant. -/
theorem stepOp_inv (s : AppState) (op : TabOp) (hs : storeInv s)
    (hop : wfOp op = true) : storeInv (stepOp s op) := by
  cases op with
  | upsert r =>
    have hr : wfResource r = true := hop
    refine ⟨upsertTabs_wf s.tabs r hs.1 hr, ?_⟩
    have hmaps := upsertTabs_map_idKey s.tabs r hs.1 hr
    by_cases hany : s.tabs.any (fun t => tabMatches t r) = true
    · have : (stepOp s (.upsert r)).tabs.map idKey = s.tabs.map idKey :=
        hmaps.1 hany
      rw [show (stepOp s (.upsert r)).tabs = (upsertTabs s.tabs r).1 from rfl,
        hmaps.1 hany]
      exact hs.2
    · have hanyf : s.tabs.any (fun t => tabMatches t r) = false :=
        (Bool.eq_false_iff).mpr hany
      rw [show (stepOp s (.upsert r)).tabs = (upsertTabs s.tabs r).1 from rfl,
        hmaps.2 hanyf]
      have hnotin : idKey r ∉ s.tabs.map idKey := by
        intro hmem
        obtain ⟨t, ht, hkey⟩ := List.mem_map.mp hmem
        have : tabMatches t r = true :=
          (tabMatches_iff_idKey t r (hs.1 t ht) hr).mpr hkey
        exact hany (List.any_eq_true.mpr ⟨t, ht, this⟩)
      exact List.Nodup.append hs.2 (List.nodup_singleton _)
        (by simpa [List.disjoint_singleton] using hnotin)
  | close id =>
    rcases closeTab_tabs_cases s id with h | h
    · exact ⟨fun t ht => hs.1 t (h ▸ ht), by rw [show (stepOp s (.close id)).tabs = (closeTab s id).tabs from rfl, h]; exact hs.2⟩
    · refine ⟨?_, ?_⟩
      · intro t ht
        rw [show (stepOp s (.close id)).tabs = (closeTab s id).tabs from rfl, h] at ht
        exact hs.1 t (List.mem_of_mem_filter ht)
      · rw [show (stepOp s (.close id)).tabs = (closeTab s id).tabs from rfl, h]
        exact hs.2.sublist ((List.filter_sublist s.tabs).map idKey)
  | setActive id =>
    by_cases hmem : s.tabs.any (fun t => t.id == id) = true
    · simpa [stepOp, hmem] using hs
    · simpa [stepOp, (Bool.eq_false_iff).mpr hmem] using hs

/-- Folding well-formed store operations preserves the store invariant. -/
theorem foldl_stepOp_inv (ops : List TabOp) (s : AppState) (hs : storeInv s)
    (hw : ∀ op ∈ ops, wfOp op = true) : storeInv (ops.foldl stepOp s) := by
  induction ops generalizing s with
  | nil => exact hs
  | cons op ops ih =>
    exact ih (stepOp s op)
      (stepOp_inv s op hs (hw op (List.mem_cons_self op ops)))
      (fun o ho => hw o (List.mem_cons_of_mem op ho))

/-- C2.  Every sequence of well-formed upsert, close and setActive
operations run from the empty collection yields a tab collection in which no
two entries share a (kind, identity) pair; since the sequence is arbitrary,
this holds at every point of any longer run. -/
theorem tab_identity_unique (ops : List TabOp)
    (h : ∀ op ∈ ops, wfOp op = true) :
    List.Pairwise (fun a b => idKey a ≠ idKey b) (runOps ops).tabs := by
  have hinv : storeInv (runOps ops) :=
    foldl_stepOp_inv ops initState ⟨fun t ht => absurd ht (List.not_mem_nil t), List.nodup_nil⟩ h
  have hnd := hinv.2
  rw [List.Nodup, List.pairwise_map] at hnd
  exact hnd

/-- Witness for C2 at a concrete operation sequence: open a.md, open b.md,
re-open a.md under a fresh transient id, close b, select a. -/
theorem tab_identity_unique_witness :
    List.Pairwise (fun a b => idKey a ≠ idKey b)
      (runOps [.upsert resA, .upsert resB,
        .upsert { resA with id := str "zz", content := str "new" },
        .close (str "b"), .setActive (str "a")]).tabs :=
  tab_identity_unique _ (by decide)
